import Mathlib

/-!
Verification of the install-this-mcp configuration generator.

This file gives a shallow embedding, in Lean, of the two core components of
the `install-this-mcp` repository:

* `generateMCPConfig` / `generateMCPInstallationGuide` (src/index.js): the
  pure catalog builder mapping an `(mcpUrl, serverName)` pair to a fixed list
  of per-client installation descriptors, and the derived markdown guide;
* `fetchMCPMetadata` / `getBestIcon` and the relevant slice of the worker
  `fetch` handler (the unnamed worker source file): metadata discovery,
  descriptor-array matching, icon selection, and the handler's choice of
  effective server name.

JavaScript strings are modelled as Lean `String`s (sequences of Unicode
scalar values; JS strings containing unpaired surrogates are outside the
model's domain).  Platform builtins used by the source (`encodeURIComponent`,
`btoa`, `JSON.stringify`, `String.prototype.replaceAll`,
`String.prototype.includes`, `new URL`) are embedded from their platform
specifications.  `btoa` throws an `InvalidCharacterError` when its argument
contains a code unit above U+00FF (HTML spec, WindowOrWorkerGlobalScope);
this partiality is modelled with `Option`, making `generateMCPConfig`
`Option`-valued exactly where the JavaScript function can throw.
-/

/-! Hexadecimal digits -/

/-- Lowercase hexadecimal digit character for `n < 16`
(used by the model of the `\u00xx` escapes of `JSON.stringify`). -/
def hexLower (n : Nat) : Char :=
  if n < 10 then Char.ofNat (48 + n) else Char.ofNat (87 + n)

/-- Uppercase hexadecimal digit character for `n < 16`
(used by the model of `encodeURIComponent`, which emits uppercase hex). -/
def hexUpper (n : Nat) : Char :=
  if n < 10 then Char.ofNat (48 + n) else Char.ofNat (55 + n)

/-- Value of a hexadecimal digit character (either case), `none` otherwise. -/
def hexVal (c : Char) : Option Nat :=
  let n := c.toNat
  if 48 ≤ n ∧ n ≤ 57 then some (n - 48)
  else if 97 ≤ n ∧ n ≤ 102 then some (n - 87)
  else if 65 ≤ n ∧ n ≤ 70 then some (n - 55)
  else none

/-! UTF-8 bytes of a scalar value -/

/-- The UTF-8 byte sequence of one Unicode scalar value. -/
def utf8Bytes (c : Char) : List Nat :=
  let n := c.toNat
  if n < 0x80 then [n]
  else if n < 0x800 then [0xC0 + n / 0x40, 0x80 + n % 0x40]
  else if n < 0x10000 then
    [0xE0 + n / 0x1000, 0x80 + (n / 0x40) % 0x40, 0x80 + n % 0x40]
  else
    [0xF0 + n / 0x40000, 0x80 + (n / 0x1000) % 0x40, 0x80 + (n / 0x40) % 0x40,
      0x80 + n % 0x40]

/-! Model of encodeURIComponent -/

/-- Characters left unescaped by `encodeURIComponent`
(ECMA-262: `A-Z a-z 0-9 - _ . ! ~ * ' ( )`). -/
def isUriUnreserved (c : Char) : Bool :=
  let n := c.toNat
  (65 ≤ n && n ≤ 90) || (97 ≤ n && n ≤ 122) || (48 ≤ n && n ≤ 57) ||
    n = 45 || n = 95 || n = 46 || n = 33 || n = 126 || n = 42 || n = 39 ||
    n = 40 || n = 41

/-- Percent-encoding of a single byte, `%XX` with uppercase hex. -/
def pctByte (b : Nat) : List Char :=
  ['%', hexUpper (b / 16), hexUpper (b % 16)]

/-- Body of `encodeURIComponent` on a character list: unreserved characters pass
through, all others are percent-encoded as their UTF-8 bytes. -/
def encList (l : List Char) : List Char :=
  l.flatMap fun c =>
    if isUriUnreserved c then [c] else (utf8Bytes c).flatMap pctByte

/-- Model of the ECMAScript builtin `encodeURIComponent` (total on Lean
strings; the builtin throws only on unpaired surrogates, which Lean strings
cannot contain). -/
def encodeURIComponent (s : String) : String :=
  ⟨encList s.data⟩

/-! Model of btoa (base64 of a Latin-1 string) -/

/-- The base64 alphabet. -/
def b64Char (n : Nat) : Char :=
  "ABCDEFGHIJKLMNOPQRSTUVWXYZabcdefghijklmnopqrstuvwxyz0123456789+/".data.getD n 'A'

/-- Standard base64 encoding of a byte list, with `=` padding. -/
def b64Encode : List Nat → List Char
  | [] => []
  | [b1] => [b64Char (b1 / 4), b64Char (b1 % 4 * 16), '=', '=']
  | [b1, b2] =>
    [b64Char (b1 / 4), b64Char (b1 % 4 * 16 + b2 / 16), b64Char (b2 % 16 * 4), '=']
  | b1 :: b2 :: b3 :: rest =>
    b64Char (b1 / 4) :: b64Char (b1 % 4 * 16 + b2 / 16) ::
      b64Char (b2 % 16 * 4 + b3 / 64) :: b64Char (b3 % 64) :: b64Encode rest

/-- Model of the platform builtin `btoa` (HTML spec): the input's code units
are taken as bytes; a code unit above U+00FF raises `InvalidCharacterError`,
modelled as `none`. -/
def btoa (s : String) : Option String :=
  if s.data.all (fun c => c.toNat < 256) then
    some ⟨b64Encode (s.data.map Char.toNat)⟩
  else none

/-! JSON values and JSON.stringify.

The configuration fragments built by the source only ever contain objects
and strings, so the JSON model is restricted to those two constructors. -/

/-- JSON values as produced by the catalog builder: strings and objects
(fields in insertion order, as `JSON.stringify` serializes them). -/
inductive Json where
  | str : String → Json
  | obj : List (String × Json) → Json

/-- Escape sequence emitted by `JSON.stringify` for one character:
`"` and `\` are backslash-escaped, the named control escapes are used for
U+0008/9/A/C/D, all other control characters become `\u00xx` (lowercase
hex), and everything else passes through. -/
def escChar (c : Char) : List Char :=
  if c = '\x22' then ['\x5c', '\x22']
  else if c = '\x5c' then ['\x5c', '\x5c']
  else if c = '\x08' then ['\x5c', 'b']
  else if c = '\x09' then ['\x5c', 't']
  else if c = '\x0a' then ['\x5c', 'n']
  else if c = '\x0c' then ['\x5c', 'f']
  else if c = '\x0d' then ['\x5c', 'r']
  else if c.toNat < 32 then
    ['\x5c', 'u', '0', '0', hexLower (c.toNat / 16), hexLower (c.toNat % 16)]
  else [c]

/-- Escaping of a whole string body, as `JSON.stringify` does. -/
def escList (l : List Char) : List Char :=
  l.flatMap escChar

/-- String form of `escList`. -/
def escString (s : String) : String :=
  ⟨escList s.data⟩

mutual

/-- Compact `JSON.stringify` (no spacing), restricted to the string/object
fragment of JSON used by the source. -/
def Json.stringifyCompact : Json → String
  | .str s => "\x22" ++ escString s ++ "\x22"
  | .obj fs => "\x7b" ++ stringifyFieldsCompact fs ++ "\x7d"

/-- Comma-separated `"key":value` text of an object body, in order. -/
def stringifyFieldsCompact : List (String × Json) → String
  | [] => ""
  | [(k, v)] => "\x22" ++ escString k ++ "\x22:" ++ Json.stringifyCompact v
  | (k, v) :: rest =>
    "\x22" ++ escString k ++ "\x22:" ++ Json.stringifyCompact v ++ "," ++
      stringifyFieldsCompact rest

end

/-- Spaces used for pretty-printing indentation. -/
def padSpaces (n : Nat) : String :=
  ⟨List.replicate n ' '⟩

mutual

/-- Pretty printing as `JSON.stringify(value, null, 2)`: with two-space
indentation, restricted to the string/object fragment used by the source.
`ind` is the indentation of the line on which the value starts. -/
def Json.stringifyPretty (ind : Nat) : Json → String
  | .str s => "\x22" ++ escString s ++ "\x22"
  | .obj [] => "\x7b\x7d"
  | .obj (f :: fs) =>
    "\x7b\n" ++
      String.intercalate ",\n" (stringifyFieldsPretty (ind + 2) (f :: fs)) ++
      "\n" ++ padSpaces ind ++ "\x7d"

/-- The indented `"key": value` lines of an object, in order. -/
def stringifyFieldsPretty (ind : Nat) : List (String × Json) → List String
  | [] => []
  | (k, v) :: rest =>
    (padSpaces ind ++ "\x22" ++ escString k ++ "\x22: " ++
        Json.stringifyPretty ind v) ::
      stringifyFieldsPretty ind rest

end

/-! Models of String.prototype.replaceAll and String.prototype.includes -/

/-- Replacement semantics of `String.prototype.replaceAll` with a non-empty
string pattern: scan left to right, replacing each (non-overlapping)
occurrence of `pat` by `rep`.  Fuel-indexed (any fuel at least the input
length behaves identically; the wrapper passes the length).  An empty
pattern never fires (the source only uses the single character patterns
`" "` and `"."`). -/
def replaceAllAux (pat rep : List Char) : Nat → List Char → List Char
  | _, [] => []
  | 0, l => l
  | fuel + 1, c :: rest =>
    if pat.isPrefixOf (c :: rest) ∧ pat ≠ [] then
      rep ++ replaceAllAux pat rep fuel ((c :: rest).drop pat.length)
    else
      c :: replaceAllAux pat rep fuel rest

/-- Model of `String.prototype.replaceAll` for string patterns. -/
def jsReplaceAll (s pat rep : String) : String :=
  ⟨replaceAllAux pat.data rep.data s.data.length s.data⟩

/-- Containment of `sub` in a character list (`String.prototype.includes`). -/
def includesList (sub : List Char) : List Char → Bool
  | [] => sub.isEmpty
  | c :: rest => sub.isPrefixOf (c :: rest) || includesList sub rest

/-- Model of `String.prototype.includes`. -/
def jsIncludes (s sub : String) : Bool :=
  includesList sub.data s.data

/-- Propositional substring containment, used to state "the output contains
the literal text" claims. -/
def strContains (s sub : String) : Prop :=
  ∃ a b, s = a ++ sub ++ b

/-! Catalog builder (src/index.js, generateMCPConfig) -/

/-- ClientInstallDescriptor: one entry of the catalog built by
`generateMCPConfig` (the `MCPConfig` typedef of src/index.js). -/
structure MCPConfig where
  client : String
  iconUrl : String
  deepLink : Option String := none
  remoteCommand : Option String := none
  instructions : String
  configJson : Option Json := none

/-- Embedding of `generateMCPConfig(mcpUrl, serverName)` from src/index.js.

The only effectful step of the source is `btoa(JSON.stringify({ url: mcpUrl }))`
in the Cursor deep link, which throws when `mcpUrl` contains a code unit above
U+00FF; this is the sole source of the `Option`.  All strings are the source's
template literals (apostrophes and double quotes inside string literals are
written with `\x27` / `\x22` escapes; the text is identical). -/
def generateMCPConfig (mcpUrl serverName : String) : Option (List MCPConfig) :=
  match btoa (Json.stringifyCompact (Json.obj [("url", Json.str mcpUrl)])) with
  | none => none
  | some cursorB64 => some [
    { client := "Cursor",
      iconUrl := "https://www.google.com/s2/favicons?domain=cursor.com&sz=64",
      deepLink := some ("https://cursor.com/en/install-mcp?name=" ++
        encodeURIComponent serverName ++ "&config=" ++ cursorB64),
      instructions :=
        "Add to `~/.cursor/mcp.json` or `.cursor/mcp.json` (project-specific)",
      configJson := some (Json.obj [("mcpServers", Json.obj [(serverName,
        Json.obj [("url", Json.str mcpUrl)])])]) },
    { client := "VS Code",
      iconUrl :=
        "https://www.google.com/s2/favicons?domain=code.visualstudio.com&sz=64",
      deepLink := some ("https://insiders.vscode.dev/redirect/mcp/install?name=" ++
        encodeURIComponent serverName ++ "&config=" ++
        encodeURIComponent (Json.stringifyCompact (Json.obj
          [("type", Json.str "http"), ("url", Json.str mcpUrl)]))),
      instructions := "Add to VS Code settings.json",
      configJson := some (Json.obj [("mcp", Json.obj [("servers", Json.obj
        [(serverName, Json.obj
          [("type", Json.str "http"), ("url", Json.str mcpUrl)])])])]) },
    { client := "Claude Desktop / Claude.ai",
      iconUrl := "https://www.google.com/s2/favicons?domain=claude.ai&sz=64",
      instructions :=
        "Go to Settings → Connectors → Add Custom Connector and fill in:\n- **Name**: " ++
        serverName ++ "\n- **URL**: " ++ mcpUrl ++
        "\n\nPlease note that if you are part of an organisation, you may not have access to custom connectors at this point. Ask your org administrator." },
    { client := "Claude Code",
      iconUrl := "https://www.google.com/s2/favicons?domain=claude.ai&sz=64",
      remoteCommand := some ("claude mcp add --transport http \x22" ++
        jsReplaceAll (jsReplaceAll serverName " " "-") "." "_" ++
        "\x22 " ++ mcpUrl),
      instructions := "Run the command in your terminal" },
    { client := "Windsurf",
      iconUrl := "https://www.google.com/s2/favicons?domain=codeium.com&sz=64",
      instructions := "Add to your Windsurf MCP configuration",
      configJson := some (Json.obj [("mcpServers", Json.obj [(serverName,
        Json.obj [("serverUrl", Json.str mcpUrl)])])]) },
    { client := "Cline",
      iconUrl := "https://www.google.com/s2/favicons?domain=github.com&sz=64",
      instructions :=
        "Go to MCP Servers section → Remote Servers → Edit Configuration",
      configJson := some (Json.obj [("mcpServers", Json.obj [(serverName,
        Json.obj [("url", Json.str mcpUrl),
          ("type", Json.str "streamableHttp")])])]) },
    { client := "Gemini CLI",
      iconUrl :=
        "https://www.google.com/s2/favicons?domain=gemini.google.com&sz=64",
      instructions := "Add to `~/.gemini/settings.json`",
      configJson := some (Json.obj [("mcpServers", Json.obj [(serverName,
        Json.obj [("httpUrl", Json.str mcpUrl)])])]) },
    { client := "ChatGPT",
      iconUrl := "https://www.google.com/s2/favicons?domain=chatgpt.com&sz=64",
      instructions :=
        "First, go to \x27Settings -> Connectors -> Advanced Settings\x27 and turn on \x27Developer Mode\x27.\n\nThen, in connector settings click \x27create\x27.\n      \nFill in:\n\n- **Name**: " ++
        serverName ++ "\n- **URL**: " ++ mcpUrl ++
        "\n- **Authentication**: OAuth\n\nIn a new chat ensure developer mode is turned on with the connector(s) selected.\n\nPlease note that <a href=\x22https://platform.openai.com/docs/guides/developer-mode\x22 target=\x22_blank\x22>Developer Mode</a> must be enabled and this feature may not be available for everyone." }]

/-- The hand-curated client-name sequence of the catalog, in source order. -/
def catalogClients : List String :=
  ["Cursor", "VS Code", "Claude Desktop / Claude.ai", "Claude Code",
    "Windsurf", "Cline", "Gemini CLI", "ChatGPT"]

/-! Markdown guide renderer (src/index.js, generateMCPInstallationGuide) -/

/-- Markdown section emitted for one descriptor by the `forEach` body of
`generateMCPInstallationGuide` (heading, optional deep-link line, optional
fenced command block, instructions line, optional fenced JSON block), without
the trailing separator. -/
def mdSection (config : MCPConfig) : String :=
  "## " ++ config.client ++ "\n\n" ++
  (match config.deepLink with
   | some dl => "[🔗 Install via deep link](" ++ dl ++ ")\n\n"
   | none => "") ++
  (match config.remoteCommand with
   | some rc => "**Command:**\n```bash\n" ++ rc ++ "\n```\n\n"
   | none => "") ++
  "**Instructions:** " ++ config.instructions ++ "\n\n" ++
  (match config.configJson with
   | some j => "**Configuration:**\n```json\n" ++ Json.stringifyPretty 0 j ++ "\n```\n\n"
   | none => "")

/-- Concatenation of the sections with the source's separator rule: the
`forEach` appends `---\n\n` after a section exactly when `index < length - 1`,
so a separator stands between adjacent sections and never after the last. -/
def guideBody : List MCPConfig → String
  | [] => ""
  | [c] => mdSection c
  | c :: d :: rest => mdSection c ++ "---\n\n" ++ guideBody (d :: rest)

/-- Embedding of `generateMCPInstallationGuide(mcpUrl, serverName)` from
src/index.js; `Option`-valued because it begins by calling
`generateMCPConfig`. -/
def generateMCPInstallationGuide (mcpUrl serverName : String) : Option String :=
  (generateMCPConfig mcpUrl serverName).map fun configs =>
    "# MCP Server Installation Guide\n\n" ++
    "**Server Name**: `" ++ serverName ++ "`  \n" ++
    "**Server URL**: `" ++ mcpUrl ++ "`\n\n" ++
    guideBody configs

/-! Metadata resolver (worker source, fetchMCPMetadata and getBestIcon) -/

/-- Runtime shape of a descriptor document's `transport` object, as the
matching code reads it: a `type` discriminator plus the `endpoint` field of
`streamable-http` transports and the `url` field of `sse` transports, either
of which may be missing on malformed documents (JavaScript then reads
`undefined`). -/
structure Transport where
  type : String
  endpoint : Option String := none
  url : Option String := none
deriving DecidableEq

/-- The slice of `serverInfo` the worker reads (`title`). -/
structure ServerInfo where
  title : Option String := none
deriving DecidableEq

/-- The slice of a descriptor document (server card) that the embedded code
paths read: the `transport` object (possibly missing) and `serverInfo`. -/
structure Card where
  transport : Option Transport := none
  serverInfo : Option ServerInfo := none
deriving DecidableEq

/-- Parsed absolute URL: scheme, host (with any port), and the remainder
(path, query, fragment). -/
structure UrlParts where
  scheme : String
  host : String
  path : String

/-- Split of a character list at the first `://`, returning the characters
before it and after it. -/
def splitScheme : List Char → Option (List Char × List Char)
  | [] => none
  | ':' :: '/' :: '/' :: rest => some ([], rest)
  | c :: rest => (splitScheme rest).map fun (sc, r) => (c :: sc, r)

/-- List-level model of `String.prototype.startsWith`. -/
def strStartsWith (s pre : String) : Bool :=
  pre.data.isPrefixOf s.data

/-- Parse of an absolute URL string into scheme, host and remainder; `none`
when the string has no `scheme://host` shape.  This is a simplified model of
WHATWG URL parsing: it performs no host lowercasing, percent-encoding or
dot-segment removal.  The claims below use it only on plain
`https://host/path` shapes, where it agrees with the platform parser. -/
def parseUrl (s : String) : Option UrlParts :=
  match splitScheme s.data with
  | none => none
  | some (sc, rest) =>
    if sc.isEmpty then none
    else
      let hostChars := rest.takeWhile fun c => c != '/' && c != '?'
      let pathChars := rest.drop hostChars.length
      if hostChars.isEmpty then none
      else some ⟨⟨sc⟩, ⟨hostChars⟩, ⟨pathChars⟩⟩

/-- Serialized (`href`) form of parsed URL parts; an empty or query-only
remainder gains the `/` that WHATWG serialization inserts. -/
def urlHref (u : UrlParts) : String :=
  u.scheme ++ "://" ++ u.host ++
    (if u.path = "" || strStartsWith u.path "?" then "/" ++ u.path else u.path)

/-- Directory of a path string: everything up to and including the last `/`
(empty when the path has no `/`). -/
def dirOfPath (p : String) : String :=
  ⟨(p.data.reverse.dropWhile fun c => c != '/').reverse⟩

/-- Model of the platform URL constructor `new URL(input, base).href`,
restricted as `parseUrl` is; `none` models the constructor throwing (neither
`input` nor `base` parses as an absolute URL). -/
def resolveHref (input base : String) : Option String :=
  match parseUrl input with
  | some u => some (urlHref u)
  | none =>
    match parseUrl base with
    | none => none
    | some b =>
      if strStartsWith input "//" then (parseUrl (b.scheme ++ ":" ++ input)).map urlHref
      else if strStartsWith input "/" then some (b.scheme ++ "://" ++ b.host ++ input)
      else if input = "" then some (urlHref b)
      else
        let dir := dirOfPath b.path
        some (b.scheme ++ "://" ++ b.host ++
          (if dir = "" then "/" else dir) ++ input)

/-- The `transportUrl` computed inside the array-matching callback of
`fetchMCPMetadata`: for `streamable-http`, `new URL(endpoint, mcpUrl).href`
(a missing `endpoint` reads as `undefined` and is coerced to the string
`"undefined"` by the constructor; a constructor throw is `Except.error`);
for every other type the callback only reaches this point for `sse`, where
it is the transport's `url` field. -/
def transportUrlOf (mcpUrl : String) (t : Transport) : Except Unit (Option String) :=
  if t.type = "streamable-http" then
    match resolveHref (t.endpoint.getD "undefined") mcpUrl with
    | some href => .ok (some href)
    | none => .error ()
  else .ok t.url

/-- The array-matching callback of `fetchMCPMetadata` on one card:
documents without a transport and documents whose transport type is neither
`streamable-http` nor `sse` return `false`; otherwise the card matches when
`transportUrl === mcpUrl` or `mcpUrl.includes(transport.endpoint || "")`. -/
def cardMatches (mcpUrl : String) (card : Card) : Except Unit Bool :=
  match card.transport with
  | none => .ok false
  | some t =>
    if t.type = "streamable-http" || t.type = "sse" then
      match transportUrlOf mcpUrl t with
      | .error e => .error e
      | .ok tu => .ok (tu == some mcpUrl || jsIncludes mcpUrl (t.endpoint.getD ""))
    else .ok false

/-- `Array.prototype.find` over the cards with the matching callback: first
match wins, a thrown exception aborts the search. -/
def findCard (mcpUrl : String) : List Card → Except Unit (Option Card)
  | [] => .ok none
  | c :: rest =>
    match cardMatches mcpUrl c with
    | .error e => .error e
    | .ok true => .ok (some c)
    | .ok false => findCard mcpUrl rest

/-- The array branch of `fetchMCPMetadata`: `return match || data[0] || null`. -/
def selectCard (mcpUrl : String) (cards : List Card) : Except Unit (Option Card) :=
  match findCard mcpUrl cards with
  | .error e => .error e
  | .ok (some c) => .ok (some c)
  | .ok none => .ok cards.head?

/-- The parsed body of the discovery response: `RespBody.malformed` models a
body on which `response.json()` throws, otherwise the body is a single
descriptor document or an array of them. -/
inductive RespBody where
  | malformed
  | single (card : Card)
  | array (cards : List Card)

/-- Outcome of the single outbound fetch, supplied as an oracle: the fetch
either rejects (network failure) or yields a response with an `ok` flag and
a body. -/
inductive FetchOutcome where
  | networkError
  | response (ok : Bool) (body : RespBody)

/-- The discovery URL derived at the top of `fetchMCPMetadata`: split on `/`,
pop the last segment, rejoin, append `/.well-known/mcp`. -/
def wellKnownUrl (mcpUrl : String) : String :=
  String.intercalate "/" ((mcpUrl.splitOn "/").dropLast) ++ "/.well-known/mcp"

/-- Embedding of `fetchMCPMetadata(mcpUrl)` with the network modelled as an
explicit `FetchOutcome`.  The surrounding `try/catch` converts every thrown
exception (network failure, JSON parse failure, a `new URL` throw inside the
matching callback) to `null`, and a non-ok response returns `null`; so the
function is total with an all-or-nothing `Option Card` result. -/
def fetchMCPMetadata (mcpUrl : String) (outcome : FetchOutcome) : Option Card :=
  match outcome with
  | .networkError => none
  | .response false _ => none
  | .response true .malformed => none
  | .response true (.single c) => some c
  | .response true (.array cs) =>
    match selectCard mcpUrl cs with
    | .error _ => none
    | .ok r => r

/-! Icon selection (worker source, getBestIcon) -/

/-- Icon candidate as `getBestIcon` reads it: a `src` and an optional
declared `mimeType`. -/
structure Icon where
  src : String
  mimeType : Option String := none
deriving DecidableEq

/-- The first `find` predicate of `getBestIcon`:
`icon.mimeType?.match(/image\/(png|jpeg|jpg)/)` — an unanchored regex
search, true exactly when the declared mime type contains `image/png`,
`image/jpeg` or `image/jpg` as a substring (and false when `mimeType` is
missing). -/
def iconIsPngJpeg (icon : Icon) : Bool :=
  match icon.mimeType with
  | none => false
  | some m =>
    jsIncludes m "image/png" || jsIncludes m "image/jpeg" || jsIncludes m "image/jpg"

/-- The second `find` predicate of `getBestIcon`:
`icon.mimeType === "image/svg+xml"`. -/
def iconIsSvg (icon : Icon) : Bool :=
  icon.mimeType == some "image/svg+xml"

/-- Embedding of `getBestIcon(icons)` from the worker source. -/
def getBestIcon (icons : Option (List Icon)) : Option String :=
  match icons with
  | none => none
  | some l =>
    if l.isEmpty then none
    else
      match l.find? iconIsPngJpeg with
      | some i => some i.src
      | none =>
        match l.find? iconIsSvg with
        | some i => some i.src
        | none => l.head?.map Icon.src

/-! Worker fetch handler slice (server name selection) -/

/-- The server name the worker feeds to the catalog builder:
`metadata?.serverInfo?.title || decodeURIComponent(pathParts[0])`, where the
path-derived name is taken here already decoded.  JavaScript `||` also
rejects an empty title string (falsy). -/
def effectiveServerName (metadata : Option Card) (pathName : String) : String :=
  match (metadata.bind Card.serverInfo).bind ServerInfo.title with
  | some t => if t = "" then pathName else t
  | none => pathName

/-- The descriptor list the worker's `fetch` handler renders for a request:
`generateMCPConfig(mcpUrl, serverName)` with the effective server name. -/
def handlerConfigs (metadata : Option Card) (pathName mcpUrl : String) :
    Option (List MCPConfig) :=
  generateMCPConfig mcpUrl (effectiveServerName metadata pathName)

/-! Decoders used to state the claims.

These functions are not part of the repository: they are the decoding
counterparts named by the specification ("after base64-decoding", "after
percent-decoding", "parsing the generated JSON config fragment back out"),
each modelled on the corresponding platform decoder (`atob`,
`decodeURIComponent`, `JSON.parse`), the last restricted to the flat
string-valued objects the claims decode. -/

/-- Value of a base64 alphabet character, `none` for anything else. -/
def b64Val (c : Char) : Option Nat :=
  let n := c.toNat
  if 65 ≤ n ∧ n ≤ 90 then some (n - 65)
  else if 97 ≤ n ∧ n ≤ 122 then some (n - 71)
  else if 48 ≤ n ∧ n ≤ 57 then some (n + 4)
  else if n = 43 then some 62
  else if n = 47 then some 63
  else none

/-- Base64 decoding of a character list into bytes (strict: four-character
groups, `=` padding only at the end). -/
def b64Decode : List Char → Option (List Nat)
  | [] => some []
  | c1 :: c2 :: c3 :: c4 :: rest =>
    if rest = [] ∧ c3 = '=' ∧ c4 = '=' then do
      let a ← b64Val c1
      let b ← b64Val c2
      if b % 16 = 0 then some [a * 4 + b / 16] else none
    else if rest = [] ∧ c4 = '=' then do
      let a ← b64Val c1
      let b ← b64Val c2
      let c ← b64Val c3
      if c % 4 = 0 then some [a * 4 + b / 16, b % 16 * 16 + c / 4] else none
    else do
      let a ← b64Val c1
      let b ← b64Val c2
      let c ← b64Val c3
      let d ← b64Val c4
      let tail ← b64Decode rest
      some ((a * 4 + b / 16) :: (b % 16 * 16 + c / 4) :: (c % 4 * 64 + d) :: tail)
  | _ => none

/-- Model of the platform decoder `atob`: base64-decode and read the bytes
back as a Latin-1 string. -/
def atob (s : String) : Option String :=
  (b64Decode s.data).map fun bytes => ⟨bytes.map Char.ofNat⟩

/-- Parser for one UTF-8 continuation byte written as a percent escape:
`%hh` with value in `[0x80, 0xC0)`; returns the byte value and the rest. -/
def pctCont : List Char → Option (Nat × List Char)
  | '%' :: h1 :: h2 :: rest =>
    match hexVal h1, hexVal h2 with
    | some a, some b =>
      let v := a * 16 + b
      if 0x80 ≤ v ∧ v < 0xC0 then some (v, rest) else none
    | _, _ => none
  | _ => none

/-- Decoding of one percent-escape group (the input starts right after a
`%`): reads the lead byte, then the continuation bytes its range demands,
produces the decoded scalar value and hands the remaining input to the
continuation `k`. -/
def pctGroup (k : List Char → Option (List Char)) : List Char → Option (List Char)
  | h1 :: h2 :: rest1 =>
    match hexVal h1, hexVal h2 with
    | some a, some b =>
      let b1 := a * 16 + b
      if b1 < 0x80 then (k rest1).map (Char.ofNat b1 :: ·)
      else if 0xC0 ≤ b1 ∧ b1 < 0xE0 then
        match pctCont rest1 with
        | some (b2, rest2) =>
          (k rest2).map (Char.ofNat ((b1 - 0xC0) * 0x40 + (b2 - 0x80)) :: ·)
        | none => none
      else if 0xE0 ≤ b1 ∧ b1 < 0xF0 then
        match pctCont rest1 with
        | some (b2, rest2) =>
          match pctCont rest2 with
          | some (b3, rest3) =>
            (k rest3).map
              (Char.ofNat ((b1 - 0xE0) * 0x1000 + (b2 - 0x80) * 0x40 + (b3 - 0x80)) :: ·)
          | none => none
        | none => none
      else if 0xF0 ≤ b1 ∧ b1 < 0xF8 then
        match pctCont rest1 with
        | some (b2, rest2) =>
          match pctCont rest2 with
          | some (b3, rest3) =>
            match pctCont rest3 with
            | some (b4, rest4) =>
              (k rest4).map
                (Char.ofNat ((b1 - 0xF0) * 0x40000 + (b2 - 0x80) * 0x1000 +
                  (b3 - 0x80) * 0x40 + (b4 - 0x80)) :: ·)
            | none => none
          | none => none
        | none => none
      else none
    | _, _ => none
  | _ => none

/-- Percent-decoding (`decodeURIComponent`): `%XX` groups are read as UTF-8
byte sequences, other characters pass through; `none` models the builtin
throwing `URIError` on a malformed escape sequence.  The first argument is
fuel (any value at least the input length behaves identically; the wrapper
passes the length). -/
def pctDecodeAux : Nat → List Char → Option (List Char)
  | _, [] => some []
  | 0, _ :: _ => none
  | fuel + 1, c :: rest =>
    if c = '%' then pctGroup (pctDecodeAux fuel) rest
    else (pctDecodeAux fuel rest).map (c :: ·)

/-- Percent-decoding of a character list, with the fuel set to the length. -/
def pctDecodeList (l : List Char) : Option (List Char) :=
  pctDecodeAux l.length l

/-- Model of the platform decoder `decodeURIComponent`. -/
def decodeURIComponent (s : String) : Option String :=
  (pctDecodeList s.data).map fun l => ⟨l⟩

/-- Unescaping of a single-character JSON escape (`\x`, for the characters
`JSON.parse` accepts there). -/
def unescChar (c : Char) : Option Char :=
  if c = '\x22' then some '\x22'
  else if c = '\x5c' then some '\x5c'
  else if c = '/' then some '/'
  else if c = 'b' then some '\x08'
  else if c = 't' then some '\x09'
  else if c = 'n' then some '\x0a'
  else if c = 'f' then some '\x0c'
  else if c = 'r' then some '\x0d'
  else none

/-- Parser for the four hex digits of a `\uXXXX` escape, continuation-style. -/
def parseU (k : List Char → Option (List Char × List Char)) :
    List Char → Option (List Char × List Char)
  | h1 :: h2 :: h3 :: h4 :: rest3 =>
    match hexVal h1, hexVal h2, hexVal h3, hexVal h4 with
    | some a, some b, some c2, some d =>
      (k rest3).map fun (s, r) =>
        (Char.ofNat (((a * 16 + b) * 16 + c2) * 16 + d) :: s, r)
    | _, _, _, _ => none
  | _ => none

/-- Parser for one JSON string escape (the input starts right after a
backslash); hands the remaining input to the continuation `k` and conses the
unescaped character onto its result. -/
def parseEsc (k : List Char → Option (List Char × List Char)) :
    List Char → Option (List Char × List Char)
  | [] => none
  | e :: rest2 =>
    if e = 'u' then parseU k rest2
    else
      match unescChar e with
      | some u => (k rest2).map fun (s, r) => (u :: s, r)
      | none => none

/-- Parser for the body of a JSON string literal (after the opening quote):
returns the unescaped content and the input remaining after the closing
quote.  Fuel-indexed; any fuel at least the input length behaves
identically. -/
def parseStrAux : Nat → List Char → Option (List Char × List Char)
  | _, [] => none
  | 0, _ :: _ => none
  | fuel + 1, c :: rest =>
    if c = '\x22' then some ([], rest)
    else if c = '\x5c' then parseEsc (parseStrAux fuel) rest
    else (parseStrAux fuel rest).map fun (s, r) => (c :: s, r)

/-- String-body parser with the fuel set to the input length. -/
def parseStr (l : List Char) : Option (List Char × List Char) :=
  parseStrAux l.length l

/-- Parser for the field list of a compact flat JSON object (string values
only, no whitespace), positioned after the opening brace; consumes the
closing brace.  Fuel-indexed for termination; any fuel at least the number
of fields suffices. -/
def parsePairsAux : Nat → List Char → Option (List (String × Json) × List Char)
  | 0, _ => none
  | fuel + 1, '\x22' :: rest => do
    let (k, rest1) ← parseStr rest
    match rest1 with
    | ':' :: '\x22' :: rest2 => do
      let (v, rest3) ← parseStr rest2
      match rest3 with
      | ',' :: rest4 => do
        let (ps, rest5) ← parsePairsAux fuel rest4
        some ((⟨k⟩, Json.str ⟨v⟩) :: ps, rest5)
      | '\x7d' :: rest4 => some ([(⟨k⟩, Json.str ⟨v⟩)], rest4)
      | _ => none
    | _ => none
  | _ + 1, _ => none

/-- List-level body of the flat-object parser. -/
def parseFlatList (l : List Char) : Option Json :=
  match l with
  | '\x7b' :: rest =>
    if rest = ['\x7d'] then some (Json.obj [])
    else
      match parsePairsAux rest.length rest with
      | some (ps, []) => some (Json.obj ps)
      | _ => none
  | _ => none

/-- Restriction of `JSON.parse` to compact flat string-valued objects, the
shapes carried by the deep links. -/
def parseFlatJson (s : String) : Option Json :=
  parseFlatList s.data

/-- Character text of one `"key":"value"` field of a compact flat object. -/
def fieldChars (k v : String) : List Char :=
  '\x22' :: (escList k.data ++ '\x22' :: ':' :: '\x22' :: (escList v.data ++ ['\x22']))

/-- Character text of a comma-separated field list of a compact flat object. -/
def fieldsChars : List (String × String) → List Char
  | [] => []
  | [kv] => fieldChars kv.1 kv.2
  | kv :: rest => fieldChars kv.1 kv.2 ++ ',' :: fieldsChars rest

/-- Observable used by the C5 counterexample: the Claude Code entry's CLI
command within a handler result. -/
def claudeCodeCommand (cfgs : Option (List MCPConfig)) : Option String :=
  cfgs.bind fun l => (l.get? 3).bind MCPConfig.remoteCommand

/-- Extraction of the per-server entry from a generated configuration
fragment: the single entry under `mcpServers`, or under `mcp.servers` for
the VS Code shape — its key is the server display name. -/
def fragmentEntry : Json → Option (String × Json)
  | Json.obj [(k1, Json.obj [(k2, v)])] =>
    if k1 = "mcpServers" then some (k2, v)
    else if k1 = "mcp" ∧ k2 = "servers" then
      match v with
      | Json.obj [(k3, v3)] => some (k3, v3)
      | _ => none
    else none
  | _ => none

/-- String value of a field of a flat object, `none` otherwise. -/
def lookupStr (fields : List (String × Json)) (key : String) : Option String :=
  match fields.lookup key with
  | some (Json.str s) => some s
  | _ => none

/-- Extraction of the endpoint URL from a per-server entry: the value of its
`url`, `serverUrl` or `httpUrl` field. -/
def entryUrl : Json → Option String
  | Json.obj fields =>
    match lookupStr fields "url" with
    | some u => some u
    | none =>
      match lookupStr fields "serverUrl" with
      | some u => some u
      | none => lookupStr fields "httpUrl"
  | _ => none

/-- Join of a section list with a separator between adjacent sections and
none after the last (the specification's separator rule, to be compared with
the source's index-based `forEach` accumulation). -/
def sepJoin : List String → String
  | [] => ""
  | [s] => s
  | s :: rest => s ++ "---\n\n" ++ sepJoin rest

/-! Round-trip lemmas for the platform encoders.

These connect each encoder of the embedding with the decoder named by the
specification (base64, percent-encoding, JSON string escaping), and are the
backbone of the deep-link decoding claims. -/

theorem hexVal_hexUpper : ∀ n < 16, hexVal (hexUpper n) = some n := by decide

theorem hexVal_hexLower : ∀ n < 16, hexVal (hexLower n) = some n := by decide

theorem b64Val_b64Char : ∀ n < 64, b64Val (b64Char n) = some n := by decide

theorem b64Char_ne_pad : ∀ n < 64, b64Char n ≠ '=' := by decide

theorem char_toNat_lt (c : Char) : c.toNat < 0x110000 := by
  have h : c.val.toNat < 0xd800 ∨ (0xdfff < c.val.toNat ∧ c.val.toNat < 0x110000) := c.valid
  show c.val.toNat < 0x110000
  omega

theorem b64_rt : ∀ (bs : List Nat), (∀ b ∈ bs, b < 256) →
    b64Decode (b64Encode bs) = some bs := by
  intro bs
  induction bs using b64Encode.induct with
  | case1 => intro _; rfl
  | case2 b1 =>
    intro h
    have hb1 : b1 < 256 := h b1 (by simp)
    rw [b64Encode, b64Decode]
    rw [if_pos ⟨rfl, rfl, rfl⟩]
    rw [b64Val_b64Char (b1 / 4) (by omega), b64Val_b64Char (b1 % 4 * 16) (by omega)]
    simp only [Option.bind_eq_bind, Option.some_bind]
    rw [if_pos (by omega)]
    have e1 : b1 / 4 * 4 + b1 % 4 * 16 / 16 = b1 := by omega
    rw [e1]
  | case3 b1 b2 =>
    intro h
    have hb1 : b1 < 256 := h b1 (by simp)
    have hb2 : b2 < 256 := h b2 (by simp)
    rw [b64Encode, b64Decode]
    rw [if_neg (by
      rintro ⟨-, h3, -⟩
      exact b64Char_ne_pad (b2 % 16 * 4) (by omega) h3)]
    rw [if_pos ⟨rfl, rfl⟩]
    rw [b64Val_b64Char (b1 / 4) (by omega),
      b64Val_b64Char (b1 % 4 * 16 + b2 / 16) (by omega),
      b64Val_b64Char (b2 % 16 * 4) (by omega)]
    simp only [Option.bind_eq_bind, Option.some_bind]
    rw [if_pos (by omega)]
    congr 1
    have e1 : b1 / 4 * 4 + (b1 % 4 * 16 + b2 / 16) / 16 = b1 := by omega
    have e2 : (b1 % 4 * 16 + b2 / 16) % 16 * 16 + b2 % 16 * 4 / 4 = b2 := by omega
    rw [e1, e2]
  | case4 b1 b2 b3 rest ih =>
    intro h
    have hb1 : b1 < 256 := h b1 (by simp)
    have hb2 : b2 < 256 := h b2 (by simp)
    have hb3 : b3 < 256 := h b3 (by simp)
    rw [b64Encode, b64Decode]
    rw [if_neg (by
      rintro ⟨-, -, h4⟩
      exact b64Char_ne_pad (b3 % 64) (by omega) h4)]
    rw [if_neg (by
      rintro ⟨-, h4⟩
      exact b64Char_ne_pad (b3 % 64) (by omega) h4)]
    rw [b64Val_b64Char (b1 / 4) (by omega),
      b64Val_b64Char (b1 % 4 * 16 + b2 / 16) (by omega),
      b64Val_b64Char (b2 % 16 * 4 + b3 / 64) (by omega),
      b64Val_b64Char (b3 % 64) (by omega)]
    rw [ih (fun b hb => h b (by simp [hb]))]
    simp only [Option.bind_eq_bind, Option.some_bind]
    congr 1
    have e1 : b1 / 4 * 4 + (b1 % 4 * 16 + b2 / 16) / 16 = b1 := by omega
    have e2 : (b1 % 4 * 16 + b2 / 16) % 16 * 16 + (b2 % 16 * 4 + b3 / 64) / 4 = b2 := by omega
    have e3 : (b2 % 16 * 4 + b3 / 64) % 4 * 64 + b3 % 64 = b3 := by omega
    rw [e1, e2, e3]

theorem atob_btoa (s b : String) (h : btoa s = some b) : atob b = some s := by
  unfold btoa at h
  split at h
  · rename_i hall
    obtain rfl : (⟨b64Encode (s.data.map Char.toNat)⟩ : String) = b := by
      exact Option.some.injEq .. ▸ h
    unfold atob
    rw [show (String.mk (b64Encode (s.data.map Char.toNat))).data =
      b64Encode (s.data.map Char.toNat) from rfl]
    rw [b64_rt (s.data.map Char.toNat) (by
      intro x hx
      simp only [List.mem_map] at hx
      obtain ⟨c, hc, rfl⟩ := hx
      simp only [List.all_eq_true, decide_eq_true_eq] at hall
      exact hall c hc)]
    show some (String.mk ((s.data.map Char.toNat).map Char.ofNat)) = some s
    congr 1
    apply String.ext
    show (s.data.map Char.toNat).map Char.ofNat = s.data
    have hcongr : s.data.map (Char.ofNat ∘ Char.toNat) = s.data.map id :=
      List.map_congr_left (fun c _ => by simp)
    rw [List.map_map, hcongr, List.map_id]
  · simp at h

theorem pctCont_enc (v : Nat) (hlo : 0x80 ≤ v) (hhi : v < 0xC0) (rest : List Char) :
    pctCont ('%' :: hexUpper (v / 16) :: hexUpper (v % 16) :: rest) = some (v, rest) := by
  rw [pctCont]
  rw [hexVal_hexUpper _ (by omega), hexVal_hexUpper _ (by omega)]
  simp only []
  rw [show v / 16 * 16 + v % 16 = v from by omega]
  rw [if_pos ⟨hlo, hhi⟩]

theorem utf8Bytes_len_pos (c : Char) : 1 ≤ ((utf8Bytes c).flatMap pctByte).length := by
  rw [utf8Bytes]
  split
  · simp [pctByte]
  · split
    · simp [pctByte]
    · split <;> simp [pctByte]

theorem pctDecodeAux_enc (l : List Char) :
    ∀ fuel, (encList l).length ≤ fuel → pctDecodeAux fuel (encList l) = some l := by
  induction l with
  | nil => intro fuel _; cases fuel <;> rfl
  | cons c l ih =>
    intro fuel hfuel
    have hstep : encList (c :: l) =
        (if isUriUnreserved c then [c] else (utf8Bytes c).flatMap pctByte) ++ encList l := by
      simp only [encList, List.flatMap_cons]
    rw [hstep] at hfuel ⊢
    have hhead : 1 ≤ (if isUriUnreserved c then [c] else (utf8Bytes c).flatMap pctByte).length := by
      split
      · simp
      · exact utf8Bytes_len_pos c
    obtain ⟨f, rfl⟩ : ∃ f, fuel = f + 1 := by
      refine ⟨fuel - 1, ?_⟩
      simp only [List.length_append] at hfuel
      omega
    have hf : (encList l).length ≤ f := by
      simp only [List.length_append] at hfuel
      omega
    by_cases hu : isUriUnreserved c
    · rw [if_pos hu]
      have hne : c ≠ '%' := by rintro rfl; revert hu; decide
      show pctDecodeAux (f + 1) (c :: encList l) = some (c :: l)
      rw [pctDecodeAux, if_neg hne, ih f hf]
      rfl
    · rw [if_neg hu]
      have hlt := char_toNat_lt c
      by_cases hc1 : c.toNat < 0x80
      · have hbytes : (utf8Bytes c).flatMap pctByte ++ encList l =
            '%' :: (hexUpper (c.toNat / 16) :: hexUpper (c.toNat % 16) :: encList l) := by
          rw [utf8Bytes]
          simp only [if_pos hc1]
          simp [pctByte]
        rw [hbytes, pctDecodeAux, if_pos rfl, pctGroup]
        rw [hexVal_hexUpper _ (by omega), hexVal_hexUpper _ (by omega)]
        simp only []
        rw [if_pos (by omega), ih f hf]
        simp only [Option.map_some']
        rw [show c.toNat / 16 * 16 + c.toNat % 16 = c.toNat from by omega, Char.ofNat_toNat]
      · by_cases hc2 : c.toNat < 0x800
        · have hbytes : (utf8Bytes c).flatMap pctByte ++ encList l =
              '%' :: (hexUpper ((0xC0 + c.toNat / 0x40) / 16) :: hexUpper ((0xC0 + c.toNat / 0x40) % 16) ::
              ('%' :: hexUpper ((0x80 + c.toNat % 0x40) / 16) :: hexUpper ((0x80 + c.toNat % 0x40) % 16) ::
              encList l)) := by
            rw [utf8Bytes]
            simp only [if_neg hc1, if_pos hc2]
            simp [pctByte]
          rw [hbytes, pctDecodeAux, if_pos rfl, pctGroup]
          rw [hexVal_hexUpper _ (by omega), hexVal_hexUpper _ (by omega)]
          simp only []
          rw [show (0xC0 + c.toNat / 0x40) / 16 * 16 + (0xC0 + c.toNat / 0x40) % 16 =
            0xC0 + c.toNat / 0x40 from by omega]
          rw [if_neg (by omega), if_pos (by omega)]
          rw [pctCont_enc (0x80 + c.toNat % 0x40) (by omega) (by omega)]
          simp only []
          rw [ih f hf]
          simp only [Option.map_some']
          rw [show (0xC0 + c.toNat / 0x40 - 0xC0) * 0x40 + (0x80 + c.toNat % 0x40 - 0x80) =
            c.toNat from by omega, Char.ofNat_toNat]
        · by_cases hc3 : c.toNat < 0x10000
          · have hbytes : (utf8Bytes c).flatMap pctByte ++ encList l =
                '%' :: (hexUpper ((0xE0 + c.toNat / 0x1000) / 16) :: hexUpper ((0xE0 + c.toNat / 0x1000) % 16) ::
                ('%' :: hexUpper ((0x80 + c.toNat / 0x40 % 0x40) / 16) :: hexUpper ((0x80 + c.toNat / 0x40 % 0x40) % 16) ::
                ('%' :: hexUpper ((0x80 + c.toNat % 0x40) / 16) :: hexUpper ((0x80 + c.toNat % 0x40) % 16) ::
                encList l))) := by
              rw [utf8Bytes]
              simp only [if_neg hc1, if_neg hc2, if_pos hc3]
              simp [pctByte]
            rw [hbytes, pctDecodeAux, if_pos rfl, pctGroup]
            rw [hexVal_hexUpper _ (by omega), hexVal_hexUpper _ (by omega)]
            simp only []
            rw [show (0xE0 + c.toNat / 0x1000) / 16 * 16 + (0xE0 + c.toNat / 0x1000) % 16 =
              0xE0 + c.toNat / 0x1000 from by omega]
            rw [if_neg (by omega), if_neg (by omega), if_pos (by omega)]
            rw [pctCont_enc (0x80 + c.toNat / 0x40 % 0x40) (by omega) (by omega)]
            simp only []
            rw [pctCont_enc (0x80 + c.toNat % 0x40) (by omega) (by omega)]
            simp only []
            rw [ih f hf]
            simp only [Option.map_some']
            rw [show (0xE0 + c.toNat / 0x1000 - 0xE0) * 0x1000 +
              (0x80 + c.toNat / 0x40 % 0x40 - 0x80) * 0x40 + (0x80 + c.toNat % 0x40 - 0x80) =
              c.toNat from by omega, Char.ofNat_toNat]
          · have hbytes : (utf8Bytes c).flatMap pctByte ++ encList l =
                '%' :: (hexUpper ((0xF0 + c.toNat / 0x40000) / 16) :: hexUpper ((0xF0 + c.toNat / 0x40000) % 16) ::
                ('%' :: hexUpper ((0x80 + c.toNat / 0x1000 % 0x40) / 16) :: hexUpper ((0x80 + c.toNat / 0x1000 % 0x40) % 16) ::
                ('%' :: hexUpper ((0x80 + c.toNat / 0x40 % 0x40) / 16) :: hexUpper ((0x80 + c.toNat / 0x40 % 0x40) % 16) ::
                ('%' :: hexUpper ((0x80 + c.toNat % 0x40) / 16) :: hexUpper ((0x80 + c.toNat % 0x40) % 16) ::
                encList l)))) := by
              rw [utf8Bytes]
              simp only [if_neg hc1, if_neg hc2, if_neg hc3]
              simp [pctByte]
            rw [hbytes, pctDecodeAux, if_pos rfl, pctGroup]
            rw [hexVal_hexUpper _ (by omega), hexVal_hexUpper _ (by omega)]
            simp only []
            rw [show (0xF0 + c.toNat / 0x40000) / 16 * 16 + (0xF0 + c.toNat / 0x40000) % 16 =
              0xF0 + c.toNat / 0x40000 from by omega]
            rw [if_neg (by omega), if_neg (by omega), if_neg (by omega), if_pos (by omega)]
            rw [pctCont_enc (0x80 + c.toNat / 0x1000 % 0x40) (by omega) (by omega)]
            simp only []
            rw [pctCont_enc (0x80 + c.toNat / 0x40 % 0x40) (by omega) (by omega)]
            simp only []
            rw [pctCont_enc (0x80 + c.toNat % 0x40) (by omega) (by omega)]
            simp only []
            rw [ih f hf]
            simp only [Option.map_some']
            rw [show (0xF0 + c.toNat / 0x40000 - 0xF0) * 0x40000 +
              (0x80 + c.toNat / 0x1000 % 0x40 - 0x80) * 0x1000 +
              (0x80 + c.toNat / 0x40 % 0x40 - 0x80) * 0x40 + (0x80 + c.toNat % 0x40 - 0x80) =
              c.toNat from by omega, Char.ofNat_toNat]

theorem decodeURIComponent_enc (s : String) :
    decodeURIComponent (encodeURIComponent s) = some s := by
  unfold decodeURIComponent encodeURIComponent
  rw [show (String.mk (encList s.data)).data = encList s.data from rfl]
  rw [show pctDecodeList (encList s.data) =
    pctDecodeAux (encList s.data).length (encList s.data) from rfl]
  rw [pctDecodeAux_enc s.data (encList s.data).length (Nat.le_refl _)]
  simp only [Option.map_some']

theorem escChar_len_pos (c : Char) : 1 ≤ (escChar c).length := by
  rw [escChar]
  split_ifs <;> simp

theorem parseStrAux_esc (s : List Char) :
    ∀ fuel rest, (escList s).length + 1 ≤ fuel →
      parseStrAux fuel (escList s ++ '\x22' :: rest) = some (s, rest) := by
  induction s with
  | nil =>
    intro fuel rest hfuel
    obtain ⟨f, rfl⟩ : ∃ f, fuel = f + 1 := ⟨fuel - 1, by omega⟩
    show parseStrAux (f + 1) ('\x22' :: rest) = some ([], rest)
    rw [parseStrAux, if_pos rfl]
  | cons c s ih =>
    intro fuel rest hfuel
    have hstep : escList (c :: s) = escChar c ++ escList s := by
      simp only [escList, List.flatMap_cons]
    rw [hstep] at hfuel ⊢
    rw [List.append_assoc]
    simp only [List.length_append] at hfuel
    have hec := escChar_len_pos c
    obtain ⟨f, rfl⟩ : ∃ f, fuel = f + 1 := ⟨fuel - 1, by omega⟩
    have hf : (escList s).length + 1 ≤ f := by omega
    rw [escChar]
    by_cases h1 : c = '\x22'
    · subst h1
      rw [if_pos rfl]
      show parseStrAux (f + 1) ('\x5c' :: ('\x22' :: (escList s ++ '\x22' :: rest))) = _
      rw [parseStrAux, if_neg (by decide), if_pos rfl, parseEsc, if_neg (by decide)]
      rw [show unescChar '\x22' = some '\x22' from rfl]
      simp only [ih f rest hf, Option.map_some']
    · rw [if_neg h1]
      by_cases h2 : c = '\x5c'
      · subst h2
        rw [if_pos rfl]
        show parseStrAux (f + 1) ('\x5c' :: ('\x5c' :: (escList s ++ '\x22' :: rest))) = _
        rw [parseStrAux, if_neg (by decide), if_pos rfl, parseEsc, if_neg (by decide)]
        rw [show unescChar '\x5c' = some '\x5c' from rfl]
        simp only [ih f rest hf, Option.map_some']
      · rw [if_neg h2]
        by_cases h3 : c = '\x08'
        · subst h3
          rw [if_pos rfl]
          show parseStrAux (f + 1) ('\x5c' :: ('b' :: (escList s ++ '\x22' :: rest))) = _
          rw [parseStrAux, if_neg (by decide), if_pos rfl, parseEsc, if_neg (by decide)]
          rw [show unescChar 'b' = some '\x08' from rfl]
          simp only [ih f rest hf, Option.map_some']
        · rw [if_neg h3]
          by_cases h4 : c = '\x09'
          · subst h4
            rw [if_pos rfl]
            show parseStrAux (f + 1) ('\x5c' :: ('t' :: (escList s ++ '\x22' :: rest))) = _
            rw [parseStrAux, if_neg (by decide), if_pos rfl, parseEsc, if_neg (by decide)]
            rw [show unescChar 't' = some '\x09' from rfl]
            simp only [ih f rest hf, Option.map_some']
          · rw [if_neg h4]
            by_cases h5 : c = '\x0a'
            · subst h5
              rw [if_pos rfl]
              show parseStrAux (f + 1) ('\x5c' :: ('n' :: (escList s ++ '\x22' :: rest))) = _
              rw [parseStrAux, if_neg (by decide), if_pos rfl, parseEsc, if_neg (by decide)]
              rw [show unescChar 'n' = some '\x0a' from rfl]
              simp only [ih f rest hf, Option.map_some']
            · rw [if_neg h5]
              by_cases h6 : c = '\x0c'
              · subst h6
                rw [if_pos rfl]
                show parseStrAux (f + 1) ('\x5c' :: ('f' :: (escList s ++ '\x22' :: rest))) = _
                rw [parseStrAux, if_neg (by decide), if_pos rfl, parseEsc, if_neg (by decide)]
                rw [show unescChar 'f' = some '\x0c' from rfl]
                simp only [ih f rest hf, Option.map_some']
              · rw [if_neg h6]
                by_cases h7 : c = '\x0d'
                · subst h7
                  rw [if_pos rfl]
                  show parseStrAux (f + 1) ('\x5c' :: ('r' :: (escList s ++ '\x22' :: rest))) = _
                  rw [parseStrAux, if_neg (by decide), if_pos rfl, parseEsc, if_neg (by decide)]
                  rw [show unescChar 'r' = some '\x0d' from rfl]
                  simp only [ih f rest hf, Option.map_some']
                · rw [if_neg h7]
                  by_cases h8 : c.toNat < 32
                  · rw [if_pos h8]
                    show parseStrAux (f + 1)
                      ('\x5c' :: ('u' :: '0' :: '0' :: hexLower (c.toNat / 16) ::
                        hexLower (c.toNat % 16) :: (escList s ++ '\x22' :: rest))) = _
                    rw [parseStrAux, if_neg (by decide), if_pos rfl, parseEsc, if_pos rfl, parseU]
                    rw [show hexVal '0' = some 0 from rfl]
                    rw [hexVal_hexLower _ (by omega), hexVal_hexLower _ (by omega)]
                    simp only [ih f rest hf, Option.map_some']
                    rw [show ((0 * 16 + 0) * 16 + c.toNat / 16) * 16 + c.toNat % 16 =
                      c.toNat from by omega, Char.ofNat_toNat]
                  · rw [if_neg h8]
                    show parseStrAux (f + 1) (c :: (escList s ++ '\x22' :: rest)) = _
                    rw [parseStrAux, if_neg h1, if_neg h2]
                    simp only [ih f rest hf, Option.map_some']

theorem mk_data (s : String) : String.mk s.data = s := rfl

theorem parseStr_esc (s rest : List Char) :
    parseStr (escList s ++ '\x22' :: rest) = some (s, rest) := by
  unfold parseStr
  apply parseStrAux_esc
  simp

theorem parsePairsAux_rt (ps : List (String × String)) (hne : ps ≠ []) :
    ∀ fuel rest, ps.length ≤ fuel →
      parsePairsAux fuel (fieldsChars ps ++ '\x7d' :: rest) =
        some (ps.map (fun kv => (kv.1, Json.str kv.2)), rest) := by
  induction ps with
  | nil => cases hne rfl
  | cons kv ps ih =>
    intro fuel rest hfuel
    obtain ⟨k, v⟩ := kv
    obtain ⟨f, rfl⟩ : ∃ f, fuel = f + 1 := ⟨fuel - 1, by simp at hfuel; omega⟩
    cases ps with
    | nil =>
      show parsePairsAux (f + 1) (fieldChars k v ++ '\x7d' :: rest) = _
      rw [show fieldChars k v ++ '\x7d' :: rest =
        '\x22' :: (escList k.data ++ '\x22' :: (':' :: '\x22' ::
          (escList v.data ++ '\x22' :: '\x7d' :: rest))) from by
        simp [fieldChars]]
      rw [parsePairsAux]
      rw [show parseStr (escList k.data ++ '\x22' :: (':' :: '\x22' ::
        (escList v.data ++ '\x22' :: '\x7d' :: rest))) = some (k.data, ':' :: '\x22' ::
        (escList v.data ++ '\x22' :: '\x7d' :: rest)) from parseStr_esc ..]
      simp only [Option.bind_eq_bind, Option.some_bind]
      rw [show (escList v.data ++ '\x22' :: '\x7d' :: rest) =
        (escList v.data ++ '\x22' :: ('\x7d' :: rest)) from rfl]
      rw [parseStr_esc v.data ('\x7d' :: rest)]
      simp only [Option.some_bind, mk_data, List.map_cons, List.map_nil]
    | cons p ps2 =>
      show parsePairsAux (f + 1) ((fieldChars k v ++ ',' :: fieldsChars (p :: ps2)) ++ '\x7d' :: rest) = _
      rw [show (fieldChars k v ++ ',' :: fieldsChars (p :: ps2)) ++ '\x7d' :: rest =
        '\x22' :: (escList k.data ++ '\x22' :: (':' :: '\x22' ::
          (escList v.data ++ '\x22' :: ',' :: (fieldsChars (p :: ps2) ++ '\x7d' :: rest)))) from by
        simp [fieldChars]]
      rw [parsePairsAux]
      rw [show parseStr (escList k.data ++ '\x22' :: (':' :: '\x22' ::
        (escList v.data ++ '\x22' :: ',' :: (fieldsChars (p :: ps2) ++ '\x7d' :: rest)))) =
        some (k.data, ':' :: '\x22' ::
          (escList v.data ++ '\x22' :: ',' :: (fieldsChars (p :: ps2) ++ '\x7d' :: rest)))
        from parseStr_esc ..]
      simp only [Option.bind_eq_bind, Option.some_bind]
      rw [show (escList v.data ++ '\x22' :: ',' :: (fieldsChars (p :: ps2) ++ '\x7d' :: rest)) =
        (escList v.data ++ '\x22' :: (',' :: (fieldsChars (p :: ps2) ++ '\x7d' :: rest))) from rfl]
      rw [parseStr_esc v.data (',' :: (fieldsChars (p :: ps2) ++ '\x7d' :: rest))]
      simp only [Option.some_bind]
      rw [ih (by simp) f rest (by simp at hfuel ⊢; omega)]
      simp only [Option.some_bind, mk_data, List.map_cons]

@[simp] theorem data_qq : ("\x22" : String).data = ['\x22'] := rfl
@[simp] theorem data_qcolon : ("\x22:" : String).data = ['\x22', ':'] := rfl
@[simp] theorem data_comma : ("," : String).data = [','] := rfl
@[simp] theorem data_lbrace : ("\x7b" : String).data = ['\x7b'] := rfl
@[simp] theorem data_rbrace : ("\x7d" : String).data = ['\x7d'] := rfl

theorem data_fields (ps : List (String × String)) :
    (stringifyFieldsCompact (ps.map fun kv => (kv.1, Json.str kv.2))).data = fieldsChars ps := by
  induction ps using fieldsChars.induct with
  | case1 => rfl
  | case2 kv =>
    obtain ⟨k, v⟩ := kv
    show ("\x22" ++ escString k ++ "\x22:" ++ Json.stringifyCompact (Json.str v)).data =
      fieldChars k v
    rw [Json.stringifyCompact]
    simp [escString, fieldChars]
  | case3 kv rest hne ih =>
    obtain ⟨k, v⟩ := kv
    rcases rest with - | ⟨p, ps2⟩
    · cases hne rfl
    · show ("\x22" ++ escString k ++ "\x22:" ++ Json.stringifyCompact (Json.str v) ++ "," ++
        stringifyFieldsCompact ((p :: ps2).map fun kv => (kv.1, Json.str kv.2))).data =
        fieldChars k v ++ ',' :: fieldsChars (p :: ps2)
      rw [Json.stringifyCompact]
      simp only [String.data_append, data_qq, data_qcolon, data_comma, ih]
      simp [escString, fieldChars]

theorem fieldsChars_len (ps : List (String × String)) :
    ps.length ≤ (fieldsChars ps).length := by
  induction ps using fieldsChars.induct with
  | case1 => simp [fieldsChars]
  | case2 kv => simp [fieldsChars, fieldChars]
  | case3 kv rest hne ih =>
    rcases rest with - | ⟨p, ps2⟩
    · cases hne rfl
    · rw [show fieldsChars (kv :: p :: ps2) =
        fieldChars kv.1 kv.2 ++ ',' :: fieldsChars (p :: ps2) from rfl]
      simp only [List.length_append, List.length_cons, fieldChars]
      simp at ih ⊢
      omega

theorem fieldsChars_head (ps : List (String × String)) (hne : ps ≠ []) :
    ∃ tail, fieldsChars ps = '\x22' :: tail := by
  induction ps using fieldsChars.induct with
  | case1 => cases hne rfl
  | case2 kv => exact ⟨_, rfl⟩
  | case3 kv rest hrest ih =>
    rcases rest with - | ⟨p, ps2⟩
    · cases hrest rfl
    · exact ⟨_, rfl⟩

theorem data_stringify_flat (ps : List (String × String)) :
    (Json.stringifyCompact (Json.obj (ps.map fun kv => (kv.1, Json.str kv.2)))).data =
      '\x7b' :: (fieldsChars ps ++ ['\x7d']) := by
  rw [Json.stringifyCompact]
  simp [data_fields ps]

theorem parseFlat_rt (ps : List (String × String)) (hne : ps ≠ []) :
    parseFlatJson (Json.stringifyCompact (Json.obj (ps.map fun kv => (kv.1, Json.str kv.2)))) =
      some (Json.obj (ps.map fun kv => (kv.1, Json.str kv.2))) := by
  unfold parseFlatJson
  rw [show parseFlatList (Json.stringifyCompact (Json.obj
    (ps.map fun kv => (kv.1, Json.str kv.2)))).data =
    parseFlatList ('\x7b' :: (fieldsChars ps ++ ['\x7d'])) from by rw [data_stringify_flat]]
  rw [parseFlatList]
  obtain ⟨tail, htail⟩ := fieldsChars_head ps hne
  rw [if_neg (by
    rw [htail]
    intro hcontra
    rw [List.cons_append] at hcontra
    have : '\x22' = '\x7d' := (List.cons.injEq .. ▸ hcontra).1
    exact absurd this (by decide))]
  rw [show fieldsChars ps ++ ['\x7d'] = fieldsChars ps ++ '\x7d' :: [] from rfl]
  rw [parsePairsAux_rt ps hne _ [] (by
    simp only [List.length_append, List.length_cons, List.length_nil]
    have := fieldsChars_len ps
    omega)]

theorem hexLower_toNat_lt : ∀ n < 16, (hexLower n).toNat < 256 := by decide

theorem escChar_latin1 (c : Char) :
    (∀ x ∈ escChar c, x.toNat < 256) ↔ c.toNat < 256 := by
  rw [escChar]
  split_ifs with h1 h2 h3 h4 h5 h6 h7 h8
  · subst h1; decide
  · subst h2; decide
  · subst h3; decide
  · subst h4; decide
  · subst h5; decide
  · subst h6; decide
  · subst h7; decide
  · constructor
    · intro _; omega
    · intro _ x hx
      simp only [List.mem_cons] at hx
      rcases hx with rfl | rfl | rfl | rfl | rfl | hx
      · decide
      · decide
      · decide
      · decide
      · exact hexLower_toNat_lt _ (by omega)
      · rcases hx with rfl | hx
        · exact hexLower_toNat_lt _ (by omega)
        · simp at hx
  · simp

theorem escList_latin1 (l : List Char) :
    (∀ x ∈ escList l, x.toNat < 256) ↔ ∀ c ∈ l, c.toNat < 256 := by
  simp only [escList, List.mem_flatMap]
  constructor
  · intro h c hc
    exact (escChar_latin1 c).mp (fun x hx => h x ⟨c, hc, hx⟩)
  · rintro h x ⟨c, hc, hx⟩
    exact (escChar_latin1 c).mpr (h c hc) x hx

theorem replaceAllAux_single (p r : Char) (l : List Char) :
    ∀ fuel, l.length ≤ fuel →
      replaceAllAux [p] [r] fuel l = l.map (fun c => if c = p then r else c) := by
  induction l with
  | nil => intro fuel _; cases fuel <;> rfl
  | cons c rest ih =>
    intro fuel hfuel
    obtain ⟨f, rfl⟩ : ∃ f, fuel = f + 1 := ⟨fuel - 1, by simp at hfuel; omega⟩
    rw [replaceAllAux]
    by_cases hc : c = p
    · subst hc
      rw [if_pos ⟨by simp [List.isPrefixOf], by simp⟩]
      simp only [List.length_singleton, List.drop_succ_cons, List.drop_zero]
      rw [ih f (by simp at hfuel; omega)]
      simp
    · rw [if_neg (by
        rintro ⟨hpre, -⟩
        simp [List.isPrefixOf] at hpre
        exact hc hpre.symm)]
      rw [ih f (by simp at hfuel; omega)]
      simp [hc]

theorem includesList_empty (l : List Char) : includesList [] l = true := by
  cases l <;> simp [includesList, List.isPrefixOf]

theorem btoa_isSome (s : String) :
    (btoa s).isSome = s.data.all (fun c => decide (c.toNat < 256)) := by
  unfold btoa
  split <;> simp_all

/-! Claim theorems -/

/-- C6: the metadata resolver never throws to its caller — it is a total
function into `Option Card` — and each failure mode (network failure,
non-success HTTP status, malformed JSON body, empty descriptor array)
yields the single absent outcome `none`; by the shape of the result type a
`none` carries no partially populated metadata. -/
theorem c6_resolver_absent (mcpUrl : String) :
    fetchMCPMetadata mcpUrl FetchOutcome.networkError = none ∧
    (∀ body, fetchMCPMetadata mcpUrl (FetchOutcome.response false body) = none) ∧
    fetchMCPMetadata mcpUrl (FetchOutcome.response true RespBody.malformed) = none ∧
    fetchMCPMetadata mcpUrl (FetchOutcome.response true (RespBody.array [])) = none :=
  ⟨rfl, fun _ => rfl, rfl, rfl⟩

/-- C8: best-icon selection follows the fixed preference order — a PNG/JPEG
mime-typed icon first (by the code's unanchored regex, i.e. substring
containment), else an SVG-typed icon, else the first icon of the list, else
`none` for an absent or empty list; in particular the PNG icon beats an
earlier SVG icon. -/
theorem c8_best_icon (icons : List Icon) :
    getBestIcon none = none ∧
    getBestIcon (some []) = none ∧
    (∀ i, icons.find? iconIsPngJpeg = some i → getBestIcon (some icons) = some i.src) ∧
    (icons.find? iconIsPngJpeg = none → ∀ i, icons.find? iconIsSvg = some i →
      getBestIcon (some icons) = some i.src) ∧
    (icons.find? iconIsPngJpeg = none → icons.find? iconIsSvg = none →
      ∀ i rest, icons = i :: rest → getBestIcon (some icons) = some i.src) ∧
    getBestIcon (some [⟨"a", some "image/svg+xml"⟩, ⟨"b", some "image/png"⟩]) = some "b" := by
  refine ⟨rfl, rfl, ?_, ?_, ?_, rfl⟩
  · intro i hf
    rcases icons with - | ⟨j, l⟩
    · cases hf
    · simp [getBestIcon, hf]
  · intro hf1 i hf2
    rcases icons with - | ⟨j, l⟩
    · cases hf2
    · simp [getBestIcon, hf1, hf2]
  · intro hf1 hf2 i rest hcons
    subst hcons
    simp [getBestIcon, hf1, hf2]

/-- Witness for C8: on the two-icon list of the claim the third conjunct
applies with the PNG icon as the found element. -/
theorem c8_best_icon_witness :
    getBestIcon (some [⟨"s", some "image/svg+xml"⟩, ⟨"p", some "image/png"⟩]) = some "p" :=
  (c8_best_icon [⟨"s", some "image/svg+xml"⟩, ⟨"p", some "image/png"⟩]).2.2.1
    ⟨"p", some "image/png"⟩ (by decide)

/-- C10: in the array-matching step, a descriptor whose transport has type
`sse` and no `endpoint` field always matches: the match condition falls back
to `mcpUrl.includes(endpoint || "")`, which is containment of the empty
string.  Consequently such a card placed first is selected in preference to
any later cards, in particular one whose transport exactly matches. -/
theorem c10_sse_empty_endpoint (mcpUrl : String) (card : Card) (t : Transport)
    (ht : card.transport = some t) (htype : t.type = "sse") (hep : t.endpoint = none) :
    cardMatches mcpUrl card = Except.ok true ∧
    ∀ rest, fetchMCPMetadata mcpUrl
      (FetchOutcome.response true (RespBody.array (card :: rest))) = some card := by
  have hmatch : cardMatches mcpUrl card = Except.ok true := by
    simp only [cardMatches, ht, htype, transportUrlOf, hep]
    simp [jsIncludes, includesList_empty mcpUrl.data]
  refine ⟨hmatch, fun rest => ?_⟩
  unfold fetchMCPMetadata selectCard findCard
  simp only [hmatch]

/-- Witness for C10: a first card of type `sse` without endpoint matches and
is selected ahead of a second card whose `streamable-http` endpoint resolves
exactly to the queried URL. -/
theorem c10_sse_empty_endpoint_witness :
    cardMatches "https://e.com/mcp"
      { transport := some { type := "sse" }, serverInfo := none } = Except.ok true ∧
    fetchMCPMetadata "https://e.com/mcp" (FetchOutcome.response true (RespBody.array
      [{ transport := some { type := "sse" }, serverInfo := none },
       { transport := some { type := "streamable-http", endpoint := some "/mcp" },
         serverInfo := none }])) =
      some { transport := some { type := "sse" }, serverInfo := none } := by
  have h := c10_sse_empty_endpoint "https://e.com/mcp"
    { transport := some { type := "sse" }, serverInfo := none }
    { type := "sse" } rfl rfl rfl
  exact ⟨h.1, h.2 _⟩

/-- Helper: a card whose `streamable-http` endpoint resolves exactly to the
queried URL satisfies the match predicate. -/
theorem cardMatches_http_exact (mcpUrl : String) (card : Card) (t : Transport)
    (ht : card.transport = some t) (htype : t.type = "streamable-http")
    (hres : resolveHref (t.endpoint.getD "undefined") mcpUrl = some mcpUrl) :
    cardMatches mcpUrl card = Except.ok true := by
  simp only [cardMatches, ht, htype, transportUrlOf, hres]
  simp

/-- C4 (amended): on a two-document list where the first document does not
satisfy the match predicate (in particular when its transport is missing or
of type `stdio`) and the second has a `streamable-http` transport whose
endpoint resolves to the queried URL, the resolver selects the second
document; and a document whose transport type is `stdio` never satisfies the
match predicate. -/
theorem c4_two_card_selection (mcpUrl : String) (c1 c2 : Card) (t : Transport)
    (h1 : cardMatches mcpUrl c1 = Except.ok false)
    (ht : c2.transport = some t) (htype : t.type = "streamable-http")
    (hres : resolveHref (t.endpoint.getD "undefined") mcpUrl = some mcpUrl) :
    fetchMCPMetadata mcpUrl (FetchOutcome.response true (RespBody.array [c1, c2])) = some c2 ∧
    (∀ (c : Card) (t2 : Transport), c.transport = some t2 → t2.type = "stdio" →
      cardMatches mcpUrl c = Except.ok false) := by
  constructor
  · have hm2 := cardMatches_http_exact mcpUrl c2 t ht htype hres
    unfold fetchMCPMetadata selectCard findCard
    simp only [h1]
    unfold findCard
    simp only [hm2]
  · intro c t2 hct htype2
    simp only [cardMatches, hct, htype2]
    simp

/-- Witness for C4: a concrete stdio-first two-document list. -/
theorem c4_two_card_selection_witness :
    fetchMCPMetadata "https://e.com/mcp" (FetchOutcome.response true (RespBody.array
      [{ transport := some { type := "stdio" }, serverInfo := none },
       { transport := some { type := "streamable-http", endpoint := some "/mcp" },
         serverInfo := none }])) =
      some { transport := some { type := "streamable-http", endpoint := some "/mcp" },
             serverInfo := none } :=
  (c4_two_card_selection "https://e.com/mcp"
    { transport := some { type := "stdio" }, serverInfo := none }
    { transport := some { type := "streamable-http", endpoint := some "/mcp" },
      serverInfo := none }
    { type := "streamable-http", endpoint := some "/mcp" }
    rfl rfl rfl (by decide)).1

/-- Counterexample for C4 as stated: the queried URL is
`https://e.com/mcp`; only the second document has a `streamable-http`
transport, and its endpoint `/mcp` resolves exactly to the queried URL (first
conjunct); yet the resolver selects the first document — an `sse` document
with no endpoint — not the second (second conjunct; the two documents are
distinct by the third). -/
theorem c4_counterexample :
    resolveHref "/mcp" "https://e.com/mcp" = some "https://e.com/mcp" ∧
    fetchMCPMetadata "https://e.com/mcp" (FetchOutcome.response true (RespBody.array
      [{ transport := some { type := "sse" }, serverInfo := none },
       { transport := some { type := "streamable-http", endpoint := some "/mcp" },
         serverInfo := none }])) =
      some { transport := some { type := "sse" }, serverInfo := none } ∧
    ({ transport := some { type := "sse" }, serverInfo := none } : Card) ≠
      { transport := some { type := "streamable-http", endpoint := some "/mcp" },
        serverInfo := none } := by
  exact ⟨by decide, rfl, by decide⟩

/-- C5 (amended): metadata never alters which clients appear — the client
name list of the handler's descriptor list is identical with and without
metadata — and whenever the metadata carries no non-empty
`serverInfo.title`, the full descriptor list (all connection parameters
included) is identical to the metadata-absent result.  (A non-empty title
replaces the server name fed to the catalog builder and so changes the
name-derived connection parameters; see the counterexample.) -/
theorem c5_metadata_display_only (md : Option Card) (pn url : String) :
    (handlerConfigs md pn url).map (List.map MCPConfig.client) =
      (handlerConfigs none pn url).map (List.map MCPConfig.client) ∧
    (((md.bind Card.serverInfo).bind ServerInfo.title).getD "" = "" →
      handlerConfigs md pn url = handlerConfigs none pn url) := by
  constructor
  · unfold handlerConfigs generateMCPConfig
    cases hb : btoa (Json.stringifyCompact (Json.obj [("url", Json.str url)])) with
    | none => simp only [hb]
    | some b => simp only [hb, Option.map_some']; rfl
  · intro htitle
    have heff : effectiveServerName md pn = pn := by
      unfold effectiveServerName
      cases hmd : (md.bind Card.serverInfo).bind ServerInfo.title with
      | none => rfl
      | some t =>
        rw [hmd] at htitle
        simp only [Option.getD_some] at htitle
        simp only [htitle]
        rfl
    unfold handlerConfigs
    rw [heff]
    rfl

/-- Witness for C5 (amended): metadata without a title leaves the handler's
descriptor list unchanged. -/
theorem c5_metadata_display_only_witness :
    handlerConfigs (some { transport := none, serverInfo := some { title := none } })
        "N" "https://e.com/mcp" =
      handlerConfigs none "N" "https://e.com/mcp" :=
  (c5_metadata_display_only
    (some { transport := none, serverInfo := some { title := none } })
    "N" "https://e.com/mcp").2 rfl

/-- Counterexample for C5 as stated: metadata carrying
`serverInfo.title = "T"` changes the connection parameters of the descriptor
list for path name `"N"` — the Claude Code command embeds `"T"` instead of
`"N"` — so the descriptor list is not identical to the metadata-absent one. -/
theorem c5_counterexample :
    handlerConfigs (some { transport := none, serverInfo := some { title := some "T" } })
        "N" "https://e.com/mcp" ≠
      handlerConfigs none "N" "https://e.com/mcp" := by
  intro h
  have h2 : (some "claude mcp add --transport http \x22T\x22 https://e.com/mcp" : Option String) =
      some "claude mcp add --transport http \x22N\x22 https://e.com/mcp" :=
    congrArg claudeCodeCommand h
  exact absurd h2 (by decide)

/-- C1 (amended): whenever `generateMCPConfig` returns — equivalently, for
every input pair on which its base64 step does not throw — the result is a
list of exactly eight descriptors whose client names are the fixed
hand-curated sequence `catalogClients`, independent of the inputs.  (The
claim's "for every pair of string inputs" fails only on urls with a
character above U+00FF, where `btoa` throws; see the counterexample.) -/
theorem c1_catalog_fixed (url name : String) (cfgs : List MCPConfig)
    (h : generateMCPConfig url name = some cfgs) :
    cfgs.map MCPConfig.client = catalogClients ∧ cfgs.length = 8 := by
  unfold generateMCPConfig at h
  cases hb : btoa (Json.stringifyCompact (Json.obj [("url", Json.str url)])) with
  | none => rw [hb] at h; exact Option.noConfusion h
  | some b =>
    rw [hb] at h
    obtain rfl := Option.some.inj h
    exact ⟨rfl, rfl⟩

/-- Witness for C1 (amended) at a concrete input. -/
theorem c1_catalog_fixed_witness :
    ((generateMCPConfig "https://api.example.com/mcp" "My Server").getD []).map
        MCPConfig.client = catalogClients ∧
    ((generateMCPConfig "https://api.example.com/mcp" "My Server").getD []).length = 8 :=
  c1_catalog_fixed "https://api.example.com/mcp" "My Server" _ rfl

/-- Counterexample for C1 as stated: for a url containing the character 例
(U+4F8B), `btoa` throws an `InvalidCharacterError` — modelled as `none` — so
`generateMCPConfig` does not return a descriptor list for this input pair. -/
theorem c1_counterexample :
    generateMCPConfig "https://例.example/mcp" "Server" = none := rfl

/-- Helper: the serialized `{url}` object decomposed around the escaped url. -/
theorem data_stringify_urljson (url : String) :
    (Json.stringifyCompact (Json.obj [("url", Json.str url)])).data =
      ['\x7b', '\x22', 'u', 'r', 'l', '\x22', ':', '\x22'] ++
        (escList url.data ++ ['\x22', '\x7d']) := by
  rw [show (Json.stringifyCompact (Json.obj [("url", Json.str url)])).data =
    '\x7b' :: (fieldsChars [("url", url)] ++ ['\x7d']) from data_stringify_flat [("url", url)]]
  rw [show fieldsChars [("url", url)] = fieldChars "url" url from rfl, fieldChars]
  rw [show escList "url".data = ['u', 'r', 'l'] from rfl]
  simp

/-- Helper: the JSON text of `{url}` is all Latin-1 exactly when the url is. -/
theorem all_latin1_stringify_urljson (url : String) :
    ((Json.stringifyCompact (Json.obj [("url", Json.str url)])).data.all
      (fun c => decide (c.toNat < 256))) = true ↔ ∀ c ∈ url.data, c.toNat < 256 := by
  rw [data_stringify_urljson, List.all_append, List.all_append]
  rw [show (['\x7b', '\x22', 'u', 'r', 'l', '\x22', ':', '\x22'] : List Char).all
    (fun c => decide (c.toNat < 256)) = true from by decide]
  rw [show (['\x22', '\x7d'] : List Char).all (fun c => decide (c.toNat < 256)) = true
    from by decide]
  simp only [Bool.true_and, Bool.and_true, List.all_eq_true, decide_eq_true_eq]
  exact escList_latin1 url.data

/-- Helper: success of the Cursor base64 step is equivalent to the url
being Latin-1. -/
theorem btoa_urljson_isSome (url : String) :
    (btoa (Json.stringifyCompact (Json.obj [("url", Json.str url)]))).isSome = true ↔
      ∀ c ∈ url.data, c.toNat < 256 := by
  rw [btoa_isSome]
  exact all_latin1_stringify_urljson url

/-- C3 (amended): `generateMCPConfig` is a pure function (determinism is
definitional) and it succeeds exactly on the url strings whose characters
are all below U+0100 — on those it never fails, with no validation of the
url and no constraint on the name (the empty name included); for any other
url the base64 step throws.  The inputs are interpolated verbatim, as the
theorems for the other claims exhibit. -/
theorem c3_total_characterization (url name : String) :
    (∃ cfgs, generateMCPConfig url name = some cfgs) ↔ ∀ c ∈ url.data, c.toNat < 256 := by
  unfold generateMCPConfig
  constructor
  · rintro ⟨cfgs, h⟩
    apply (btoa_urljson_isSome url).mp
    cases hb : btoa (Json.stringifyCompact (Json.obj [("url", Json.str url)])) with
    | none => rw [hb] at h; exact Option.noConfusion h
    | some b => rfl
  · intro hall
    obtain ⟨b, hb⟩ := Option.isSome_iff_exists.mp ((btoa_urljson_isSome url).mpr hall)
    rw [hb]
    exact ⟨_, rfl⟩

/-- Counterexample for C3 as stated ("total: never fails"): with the empty
name — accepted — and a url containing 中 (U+4E2D), the base64 step throws
and the builder fails. -/
theorem c3_counterexample :
    generateMCPConfig "https://中.example/mcp" "" = none := rfl

/-- Helper: the chained `replaceAll` calls of the Claude Code command equal
one character-wise substitution. -/
theorem sanitize_eq_map (name : String) :
    jsReplaceAll (jsReplaceAll name " " "-") "." "_" =
      ⟨name.data.map (fun c => if c = ' ' then '-' else if c = '.' then '_' else c)⟩ := by
  unfold jsReplaceAll
  rw [show (" " : String).data = [' '] from rfl, show ("-" : String).data = ['-'] from rfl,
    show ("." : String).data = ['.'] from rfl, show ("_" : String).data = ['_'] from rfl]
  rw [replaceAllAux_single ' ' '-' name.data _ (Nat.le_refl _)]
  rw [show (String.mk (name.data.map fun c => if c = ' ' then '-' else c)).data =
    name.data.map (fun c => if c = ' ' then '-' else c) from rfl]
  rw [replaceAllAux_single '.' '_' _ _ (by simp)]
  apply congrArg String.mk
  rw [List.map_map]
  apply List.map_congr_left
  intro c _
  by_cases h1 : c = ' '
  · subst h1; rfl
  · by_cases h2 : c = '.'
    · subst h2; rfl
    · simp [Function.comp, h1, h2]

/-- C7: the sanitized name in the generated CLI command replaces every space
with a hyphen and every dot with an underscore, globally (the command is the
fixed prefix, the character-wise substitution of the name, then the url);
for the name `My Server.v2` the command contains the token `My-Server_v2`. -/
theorem c7_sanitized_command (url name : String) (cfgs : List MCPConfig)
    (h : generateMCPConfig url name = some cfgs) :
    ∃ cmd, (cfgs.get? 3).bind MCPConfig.remoteCommand = some cmd ∧
      cmd = "claude mcp add --transport http \x22" ++
        ⟨name.data.map (fun c => if c = ' ' then '-' else if c = '.' then '_' else c)⟩ ++
        "\x22 " ++ url ∧
      (name = "My Server.v2" → strContains cmd "My-Server_v2") := by
  unfold generateMCPConfig at h
  cases hb : btoa (Json.stringifyCompact (Json.obj [("url", Json.str url)])) with
  | none => rw [hb] at h; exact Option.noConfusion h
  | some b =>
    rw [hb] at h
    obtain rfl := Option.some.inj h
    refine ⟨_, rfl, ?_, ?_⟩
    · rw [sanitize_eq_map name]
    · intro hname
      subst hname
      exact ⟨"claude mcp add --transport http \x22", "\x22 " ++ url, rfl⟩

/-- Witness for C7 at the claim's concrete name. -/
theorem c7_sanitized_command_witness :
    strContains ("claude mcp add --transport http \x22" ++
      ⟨("My Server.v2").data.map
        (fun c => if c = ' ' then '-' else if c = '.' then '_' else c)⟩ ++
      "\x22 " ++ "https://e.com/mcp") "My-Server_v2" := by
  obtain ⟨cmd, -, hcmd, himp⟩ :=
    c7_sanitized_command "https://e.com/mcp" "My Server.v2" _ rfl
  rw [← hcmd]
  exact himp rfl

/-- C2: round-trips of the generated configuration material.  (a) Parsing
any `configJson` fragment produced by the builder recovers exactly the input
name as the server key and the input url as the endpoint value.  (b) The
Cursor deep link is the fixed prefix, the percent-encoded name, and a
`config` parameter which, after base64-decoding and JSON-parsing, is exactly
the object `{url}`.  (c) The VS Code deep link likewise carries a `config`
parameter which, after percent-decoding and JSON-parsing, is exactly
`{type:"http", url}`. -/
theorem c2_roundtrip (url name : String) (cfgs : List MCPConfig)
    (h : generateMCPConfig url name = some cfgs) :
    (∀ cfg ∈ cfgs, ∀ j, cfg.configJson = some j →
      ∃ v, fragmentEntry j = some (name, v) ∧ entryUrl v = some url) ∧
    (∃ b, (cfgs.get? 0).bind MCPConfig.deepLink =
        some ("https://cursor.com/en/install-mcp?name=" ++ encodeURIComponent name ++
          "&config=" ++ b) ∧
      (atob b).bind parseFlatJson = some (Json.obj [("url", Json.str url)])) ∧
    (∃ b, (cfgs.get? 1).bind MCPConfig.deepLink =
        some ("https://insiders.vscode.dev/redirect/mcp/install?name=" ++
          encodeURIComponent name ++ "&config=" ++ b) ∧
      (decodeURIComponent b).bind parseFlatJson =
        some (Json.obj [("type", Json.str "http"), ("url", Json.str url)])) := by
  unfold generateMCPConfig at h
  cases hb : btoa (Json.stringifyCompact (Json.obj [("url", Json.str url)])) with
  | none => rw [hb] at h; exact Option.noConfusion h
  | some b =>
    rw [hb] at h
    obtain rfl := Option.some.inj h
    refine ⟨?_, ⟨b, rfl, ?_⟩, ⟨_, rfl, ?_⟩⟩
    · intro cfg hmem j hj
      simp only [List.mem_cons, List.not_mem_nil, or_false] at hmem
      rcases hmem with rfl | rfl | rfl | rfl | rfl | rfl | rfl | rfl
      all_goals simp only [] at hj
      all_goals try exact Option.noConfusion hj
      all_goals obtain rfl := Option.some.inj hj
      · exact ⟨Json.obj [("url", Json.str url)],
          rfl, rfl⟩
      · exact ⟨Json.obj [("type", Json.str "http"), ("url", Json.str url)],
          rfl, rfl⟩
      · exact ⟨Json.obj [("serverUrl", Json.str url)],
          rfl, rfl⟩
      · exact ⟨Json.obj [("url", Json.str url), ("type", Json.str "streamableHttp")],
          rfl, rfl⟩
      · exact ⟨Json.obj [("httpUrl", Json.str url)],
          rfl, rfl⟩
    · rw [atob_btoa _ _ hb]
      simp only [Option.some_bind]
      exact parseFlat_rt [("url", url)] (by simp)
    · rw [decodeURIComponent_enc]
      simp only [Option.some_bind]
      exact parseFlat_rt [("type", "http"), ("url", url)] (by simp)

/-- Witness for C2 at a concrete input pair. -/
theorem c2_roundtrip_witness :
    (∀ cfg ∈ (generateMCPConfig "https://api.example.com/mcp" "My Server").getD [],
      ∀ j, cfg.configJson = some j →
        ∃ v, fragmentEntry j = some ("My Server", v) ∧
          entryUrl v = some "https://api.example.com/mcp") ∧
    (∃ b, (((generateMCPConfig "https://api.example.com/mcp" "My Server").getD []).get? 0).bind
        MCPConfig.deepLink =
        some ("https://cursor.com/en/install-mcp?name=" ++
          encodeURIComponent "My Server" ++ "&config=" ++ b) ∧
      (atob b).bind parseFlatJson =
        some (Json.obj [("url", Json.str "https://api.example.com/mcp")])) ∧
    (∃ b, (((generateMCPConfig "https://api.example.com/mcp" "My Server").getD []).get? 1).bind
        MCPConfig.deepLink =
        some ("https://insiders.vscode.dev/redirect/mcp/install?name=" ++
          encodeURIComponent "My Server" ++ "&config=" ++ b) ∧
      (decodeURIComponent b).bind parseFlatJson =
        some (Json.obj [("type", Json.str "http"),
          ("url", Json.str "https://api.example.com/mcp")])) :=
  c2_roundtrip "https://api.example.com/mcp" "My Server" _ rfl

/-- Helper: the source's `forEach` accumulation equals the separator join of
the rendered sections. -/
theorem guideBody_sepJoin (l : List MCPConfig) :
    guideBody l = sepJoin (l.map mdSection) := by
  induction l using guideBody.induct with
  | case1 => rfl
  | case2 c => rfl
  | case3 c d rest ih =>
    show mdSection c ++ "---\n\n" ++ guideBody (d :: rest) = _
    rw [ih]
    rfl

/-- C9: the generated markdown guide is the fixed top heading, the literal
server-name line, the literal server-URL line, then one section per client
in catalog order — each section starting with `## <client>` — with exactly
one horizontal-rule separator between adjacent sections and none after the
last; the guide contains the literal name and url lines (for name `X` and
url `https://e.com/mcp` these are the lines of the claim). -/
theorem c9_markdown_guide (url name g : String)
    (h : generateMCPInstallationGuide url name = some g) :
    ∃ secs : List String,
      secs.length = 8 ∧
      g = "# MCP Server Installation Guide\n\n" ++
        "**Server Name**: `" ++ name ++ "`  \n" ++
        "**Server URL**: `" ++ url ++ "`\n\n" ++ sepJoin secs ∧
      List.Forall₂ (fun cl sec => ∃ restSec, sec = "## " ++ cl ++ "\n\n" ++ restSec)
        catalogClients secs ∧
      strContains g ("**Server Name**: `" ++ name ++ "`  \n") ∧
      strContains g ("**Server URL**: `" ++ url ++ "`\n\n") := by
  unfold generateMCPInstallationGuide at h
  cases hb : generateMCPConfig url name with
  | none => rw [hb] at h; exact Option.noConfusion h
  | some cfgs =>
    rw [hb] at h
    simp only [Option.map_some'] at h
    obtain rfl := (Option.some.inj h).symm
    refine ⟨cfgs.map mdSection, ?_, ?_, ?_, ?_, ?_⟩
    · obtain ⟨-, hlen⟩ := c1_catalog_fixed url name cfgs hb
      simp [hlen]
    · rw [guideBody_sepJoin]
    · obtain ⟨hcl, -⟩ := c1_catalog_fixed url name cfgs hb
      rw [← hcl]
      rw [List.forall₂_map_right_iff, List.forall₂_map_left_iff]
      apply List.forall₂_same.mpr
      intro c _
      refine ⟨(match c.deepLink with
        | some dl => "[🔗 Install via deep link](" ++ dl ++ ")\n\n"
        | none => "") ++
        ((match c.remoteCommand with
          | some rc => "**Command:**\n```bash\n" ++ rc ++ "\n```\n\n"
          | none => "") ++
        ("**Instructions:** " ++ (c.instructions ++ ("\n\n" ++
        (match c.configJson with
          | some j => "**Configuration:**\n```json\n" ++ Json.stringifyPretty 0 j ++ "\n```\n\n"
          | none => ""))))), ?_⟩
      show mdSection c = _
      rw [mdSection]
      simp [String.append_assoc]
    · exact ⟨"# MCP Server Installation Guide\n\n",
        "**Server URL**: `" ++ url ++ "`\n\n" ++ guideBody cfgs, by
          apply String.ext
          simp [List.append_assoc]⟩
    · exact ⟨"# MCP Server Installation Guide\n\n" ++ "**Server Name**: `" ++ name ++ "`  \n",
        guideBody cfgs, by
          apply String.ext
          simp [List.append_assoc]⟩

/-- Witness for C9 at the claim's concrete inputs: the guide contains the two
literal lines. -/
theorem c9_markdown_guide_witness :
    strContains ((generateMCPInstallationGuide "https://e.com/mcp" "X").getD "")
      "**Server Name**: `X`  \n" ∧
    strContains ((generateMCPInstallationGuide "https://e.com/mcp" "X").getD "")
      "**Server URL**: `https://e.com/mcp`\n\n" := by
  obtain ⟨secs, -, -, -, h4, h5⟩ :=
    c9_markdown_guide "https://e.com/mcp" "X" _ rfl
  exact ⟨h4, h5⟩

/-- Witness for C3 (amended): a Latin-1 url always succeeds. -/
theorem c3_total_characterization_witness :
    ∃ cfgs, generateMCPConfig "https://api.example.com/x" "" = some cfgs :=
  (c3_total_characterization "https://api.example.com/x" "").mpr (by decide)
